import Mathlib

/-!
Verification of the ImplibGenerator repository against its specification.

The development shallowly embeds the C++ sources:
  * `do_RVA_2_FileOffset` and `cprintf` from `dll2def/dll2def.cpp` (the former
    appears identically in the dumpsyms source, `unnamed/part_004`);
  * the `parse_pe` functions of dll2def and dumpsyms, specialised to the
    `/COMPACT` switch (`compact == true`), over an explicit file/stream model;
  * the import-library builder `CImportLibraryBuilder` from
    `LibGenHelper/LibGenHelperImpl.cpp` as a trace-producing state machine;
  * the JSON-driven driver loop of `MakeImpLib/main.cpp`.
Machine integers are modelled as `Nat`/`Int` with explicit `% 2^w` where the C
code can wrap.  Layers of the repository whose implementation files are not in
the source tree (the archive emitter `LibImpl.cpp`, the COFF emitter and the
import-section synthesizer) are modelled from the specification; each such
definition carries a doc comment starting with `Modelled from the spec:`.
-/

set_option linter.unusedVariables false

namespace ImplibGen

/-- 2^32, the modulus of C `uint32_t` arithmetic. -/
def U32 : Nat := 4294967296

/-- Section-bounds record of dll2def.cpp / part_004 (`struct RVA_2_FileOffset`). -/
structure RVA2FO where
  VirtualAddress : Nat
  VirtualSize : Nat
  FileOffset : Nat
deriving DecidableEq, Repr

/-- Embedding of `do_RVA_2_FileOffset` (dll2def.cpp lines 64-73; the identical
function appears in part_004 lines 82-91).  The linked list is a `List`;
`RVA >= VA && RVA <= VA + VirtualSize` uses `uint32_t` arithmetic, so the upper
bound is computed mod `2^32`; the returned `RVA - VA + FileOffset` likewise. -/
def do_RVA_2_FileOffset : List RVA2FO → Nat → Nat
  | [], _ => 0
  | s :: rest, rva =>
      if s.VirtualAddress ≤ rva ∧ rva ≤ (s.VirtualAddress + s.VirtualSize) % U32 then
        (rva - s.VirtualAddress + s.FileOffset) % U32
      else do_RVA_2_FileOffset rest rva

/-- The containment test of one iteration of `do_RVA_2_FileOffset`, as a
Boolean predicate (inclusive at both ends). -/
def rvaContains (rva : Nat) (s : RVA2FO) : Bool :=
  decide (s.VirtualAddress ≤ rva ∧ rva ≤ (s.VirtualAddress + s.VirtualSize) % U32)

/-- Claim C10: `do_RVA_2_FileOffset` maps the RVA through the first node in list
order whose range contains it, where containment is inclusive at both ends
(uint32 arithmetic), returning `RVA - VirtualAddress + FileOffset` there and `0`
when no node matches; in particular an RVA equal to
`VirtualAddress + VirtualSize` (one past the section's last byte) is still
mapped into that section. -/
theorem claim_C10 :
    (∀ (secs : List RVA2FO) (rva : Nat),
      do_RVA_2_FileOffset secs rva =
        match secs.find? (rvaContains rva) with
        | some s => (rva - s.VirtualAddress + s.FileOffset) % U32
        | none => 0) ∧
    (∀ (s : RVA2FO) (rest : List RVA2FO),
      s.VirtualAddress + s.VirtualSize < U32 →
      do_RVA_2_FileOffset (s :: rest) (s.VirtualAddress + s.VirtualSize) =
        (s.VirtualSize + s.FileOffset) % U32) := by
  constructor
  · intro secs rva
    induction secs with
    | nil => rfl
    | cons s rest ih =>
      by_cases h : s.VirtualAddress ≤ rva ∧ rva ≤ (s.VirtualAddress + s.VirtualSize) % U32
      · simp [do_RVA_2_FileOffset, List.find?, rvaContains, h]
      · simp [do_RVA_2_FileOffset, List.find?, rvaContains, h, ih]
  · intro s rest hlt
    have h1 : s.VirtualAddress ≤ s.VirtualAddress + s.VirtualSize := Nat.le_add_right _ _
    have h2 : (s.VirtualAddress + s.VirtualSize) % U32 = s.VirtualAddress + s.VirtualSize :=
      Nat.mod_eq_of_lt hlt
    simp only [do_RVA_2_FileOffset, h2]
    rw [if_pos ⟨h1, le_refl _⟩]
    congr 1
    omega

/-- Witness for C10 at a concrete section list: the RVA one past the last byte
of the first section is still mapped into it. -/
theorem claim_C10_witness :
    do_RVA_2_FileOffset [⟨4096, 512, 1024⟩] (4096 + 512) = (512 + 1024) % U32 :=
  claim_C10.2 ⟨4096, 512, 1024⟩ [] (by decide)

/-! The `cprintf` helper of dll2def.cpp (lines 76-98). -/

/-- Embedding of the digit-count computation at the top of `cprintf`
(dll2def.cpp lines 78-83), C `int` arithmetic on `Int`. -/
def cprintfLen (n : Int) : Int :=
  if n ≤ 9 then 1 else if n ≤ 99 then 2 else if n ≤ 999 then 3
  else if n ≤ 9999 then 4 else if n ≤ 99999 then 5 else 6

/-- The byte stored by `*(outp - ++x) = '0' + n % 10` (C truncated `%` on int,
stored into a `char`, i.e. reduced mod 256). -/
def cdigitByte (n : Int) : Nat := ((48 + n.tmod 10) % 256).toNat

/-- The inner digit loop of `cprintf` (`while (len-- > 0) ...`), run `k` times:
iteration writes at offset `pos - (x+1)` and divides `n` by 10 (C truncated
division).  Returns the final buffer and the final `n`. -/
def cwriteDigits : Nat → Int → Int → (Int → Nat) → Nat → ((Int → Nat) × Int)
  | 0, n, _, buf, _ => (buf, n)
  | k+1, n, pos, buf, x =>
      cwriteDigits k (n.tdiv 10) pos (Function.update buf (pos - (x + 1 : Int)) (cdigitByte n)) (x + 1)

/-- Embedding of the mask loop of `cprintf` (dll2def.cpp lines 84-96).  The
mask is the byte list of the C string (each entry a byte value `< 256`); the
loop stops at the end of the list or at a NUL byte.  State: destination buffer
(indexed by offset from `dest`), `outp - dest`, `n` and `len`.  On `%` the
code does `outp += len` and runs the digit loop, which leaves `len` at `-1`
when it ran (`len - 1` when `len` was already nonpositive). -/
def cprintfGo : List Nat → (Int → Nat) → Int → Int → Int → ((Int → Nat) × Int)
  | [], buf, outp, _, _ => (buf, outp)
  | c :: rest, buf, outp, n, len =>
      if c = 0 then (buf, outp)
      else if c = 37 then
        let outp2 := outp + len
        let r := cwriteDigits len.toNat n outp2 buf 0
        cprintfGo rest r.1 outp2 r.2 (if 0 < len then -1 else len - 1)
      else cprintfGo rest (Function.update buf outp c) (outp + 1) n len

/-- Embedding of `cprintf` (dll2def.cpp lines 76-98): returns the final buffer
and the return value `outp - dest` (with `dest` at offset 0). -/
def cprintf (buf : Int → Nat) (mask : List Nat) (n : Int) : ((Int → Nat) × Int) :=
  cprintfGo mask buf 0 n (cprintfLen n)

/-- Decimal representation of a natural number as ASCII digit bytes, no
leading zeros, `0` rendered as the single digit `0`. -/
def decRepr (n : Nat) : List Nat :=
  if h : n < 10 then [48 + n] else decRepr (n / 10) ++ [48 + n % 10]
termination_by n
decreasing_by exact Nat.div_lt_self (by omega) (by omega)

/-- The block of bytes the digit loop of `cprintf` deposits for width `k`:
the low `k` decimal digits of `n`, most significant first. -/
def padRepr : Nat → Int → List Nat
  | 0, _ => []
  | k+1, n => padRepr k (n.tdiv 10) ++ [cdigitByte n]

/-- Overwrite buffer `m` with the bytes of `l` starting at offset `base`. -/
def overwriteAt (m : Int → Nat) (base : Int) (l : List Nat) : Int → Nat :=
  fun j => if base ≤ j ∧ j < base + l.length then l.getD (j - base).toNat 0 else m j

lemma padRepr_length (k : Nat) : ∀ n : Int, (padRepr k n).length = k := by
  induction k with
  | zero => intro n; rfl
  | succ k ih => intro n; simp [padRepr, ih]

lemma cprintfLen_pos (n : Int) : 0 < cprintfLen n := by
  unfold cprintfLen; split_ifs <;> norm_num

lemma overwriteAt_nil (m : Int → Nat) (base : Int) : overwriteAt m base [] = m := by
  funext j
  simp only [overwriteAt, List.length_nil]
  rw [if_neg (by omega)]

lemma overwriteAt_update_cons (buf : Int → Nat) (p : Int) (c : Nat) (l : List Nat) :
    overwriteAt (Function.update buf p c) (p + 1) l = overwriteAt buf p (c :: l) := by
  funext j
  simp only [overwriteAt, List.length_cons, Function.update_apply, Nat.cast_add, Nat.cast_one]
  split_ifs <;> first
    | rfl
    | omega
    | (have hj : (j - p).toNat = (j - (p + 1)).toNat + 1 := by omega
       rw [hj, List.getD_cons_succ])
    | (have hj : (j - p).toNat = 0 := by omega
       rw [hj, List.getD_cons_zero])

lemma overwriteAt_update_append (buf : Int → Nat) (base : Int) (l : List Nat) (c : Nat) :
    overwriteAt (Function.update buf (base + l.length) c) base l
      = overwriteAt buf base (l ++ [c]) := by
  funext j
  simp only [overwriteAt, List.length_append, List.length_cons, List.length_nil,
    Function.update_apply, Nat.cast_add, Nat.cast_one, Nat.cast_zero]
  split_ifs <;> first
    | rfl
    | omega
    | (have hlt : (j - base).toNat < l.length := by omega
       rw [List.getD_append _ _ _ _ hlt])
    | (have hge : l.length ≤ (j - base).toNat := by omega
       rw [List.getD_append_right _ _ _ _ hge]
       have h0 : (j - base).toNat - l.length = 0 := by omega
       rw [h0, List.getD_cons_zero])

lemma overwriteAt_overwriteAt (buf : Int → Nat) (base : Int) (l1 l2 : List Nat) :
    overwriteAt (overwriteAt buf base l1) (base + l1.length) l2
      = overwriteAt buf base (l1 ++ l2) := by
  funext j
  simp only [overwriteAt, List.length_append, Nat.cast_add]
  split_ifs <;> first
    | rfl
    | omega
    | (have hge : l1.length ≤ (j - base).toNat := by omega
       rw [List.getD_append_right _ _ _ _ hge]
       congr 1
       omega)
    | (have hlt : (j - base).toNat < l1.length := by omega
       rw [List.getD_append _ _ _ _ hlt])

lemma cwriteDigits_fst (k : Nat) : ∀ (n : Int) (pos : Int) (buf : Int → Nat) (x : Nat),
    (cwriteDigits k n pos buf x).1 = overwriteAt buf (pos - (x + k : Int)) (padRepr k n) := by
  induction k with
  | zero =>
    intro n pos buf x
    simp [cwriteDigits, padRepr, overwriteAt_nil]
  | succ k ih =>
    intro n pos buf x
    rw [cwriteDigits, ih]
    have hbase : pos - ((x : Int) + 1) =
        (pos - ((x : Int) + (k + 1 : Nat))) + (padRepr k (n.tdiv 10)).length := by
      rw [padRepr_length]; push_cast; ring
    have hbase2 : pos - (((x + 1 : Nat) : Int) + k) = pos - ((x : Int) + (k + 1 : Nat)) := by
      push_cast; ring
    rw [hbase2, hbase, overwriteAt_update_append]
    rfl

lemma cprintfGo_copy (l : List Nat) : ∀ (rest : List Nat) (buf : Int → Nat) (outp n len : Int),
    (∀ c ∈ l, c ≠ 37 ∧ c ≠ 0) →
    cprintfGo (l ++ rest) buf outp n len
      = cprintfGo rest (overwriteAt buf outp l) (outp + l.length) n len := by
  induction l with
  | nil =>
    intro rest buf outp n len _
    simp [overwriteAt_nil]
  | cons c l ih =>
    intro rest buf outp n len h
    obtain ⟨hc37, hc0⟩ := h c (by simp)
    have hrest : ∀ b ∈ l, b ≠ 37 ∧ b ≠ 0 := fun b hb => h b (by simp [hb])
    rw [List.cons_append, cprintfGo, if_neg hc0, if_neg hc37,
      ih rest _ (outp + 1) n len hrest, overwriteAt_update_cons]
    congr 1
    simp only [List.length_cons, Nat.cast_add, Nat.cast_one]
    ring

lemma cprintfGo_copy_nil (l : List Nat) (buf : Int → Nat) (outp n len : Int)
    (h : ∀ c ∈ l, c ≠ 37 ∧ c ≠ 0) :
    cprintfGo l buf outp n len = (overwriteAt buf outp l, outp + l.length) := by
  have h2 := cprintfGo_copy l [] buf outp n len h
  rw [List.append_nil] at h2
  rw [h2, cprintfGo]

lemma cprintf_single_percent (pre post : List Nat) (n : Int) (buf : Int → Nat)
    (hpre : ∀ c ∈ pre, c ≠ 37 ∧ c ≠ 0) (hpost : ∀ c ∈ post, c ≠ 37 ∧ c ≠ 0) :
    cprintf buf (pre ++ 37 :: post) n
      = (overwriteAt buf 0 (pre ++ padRepr (cprintfLen n).toNat n ++ post),
         (pre.length : Int) + (cprintfLen n).toNat + post.length) := by
  have hlen : ((cprintfLen n).toNat : Int) = cprintfLen n :=
    Int.toNat_of_nonneg (le_of_lt (cprintfLen_pos n))
  unfold cprintf
  rw [cprintfGo_copy pre _ _ _ _ _ hpre, cprintfGo, if_neg (by norm_num), if_pos rfl]
  simp only []
  rw [cwriteDigits_fst]
  have hb : (0 : Int) + (pre.length : Int) + cprintfLen n - ((0 : Nat) + (cprintfLen n).toNat : Int)
      = 0 + (pre.length : Int) := by
    push_cast [hlen]
    ring
  rw [hb, overwriteAt_overwriteAt, cprintfGo_copy_nil post _ _ _ _ hpost]
  have hb2 : (0 : Int) + ((pre.length : Nat) : Int) + cprintfLen n
      = 0 + (((pre ++ padRepr (cprintfLen n).toNat n).length : Nat) : Int) := by
    rw [List.length_append, padRepr_length]
    push_cast [hlen]
    ring
  rw [hb2, overwriteAt_overwriteAt, Prod.mk.injEq]
  refine ⟨rfl, ?_⟩
  simp only [List.length_append, padRepr_length]
  push_cast [hlen]
  ring

lemma cdigitByte_ofNat (m : Nat) : cdigitByte (m : Int) = 48 + m % 10 := by
  unfold cdigitByte
  have h1 : (m : Int).tmod 10 = ((m % 10 : Nat) : Int) := by
    rw [Int.tmod_eq_emod (by positivity) (by norm_num)]
    push_cast
    omega
  rw [h1]
  have h2 : (m : Nat) % 10 < 10 := Nat.mod_lt _ (by norm_num)
  omega

lemma tdiv_ofNat (m : Nat) : (m : Int).tdiv 10 = ((m / 10 : Nat) : Int) := by
  rw [Int.tdiv_eq_ediv (by positivity) (by norm_num)]
  push_cast
  omega

lemma padRepr_eq_decRepr : ∀ (k : Nat) (m : Nat), 10 ^ k ≤ m ∨ k = 0 → m < 10 ^ (k + 1) →
    padRepr (k + 1) (m : Int) = decRepr m := by
  intro k
  induction k with
  | zero =>
    intro m _ hm
    have hm10 : m < 10 := by simpa using hm
    rw [padRepr, padRepr, decRepr]
    rw [dif_pos hm10]
    simp [cdigitByte_ofNat, Nat.mod_eq_of_lt hm10]
  | succ k ih =>
    intro m hlow hm
    have h10 : 10 ≤ m := by
      rcases hlow with h | h
      · calc 10 ≤ 10 ^ (k + 1) := by
              have : 1 ≤ 10 ^ k := Nat.one_le_pow _ _ (by norm_num)
              calc 10 = 10 * 1 := by ring
                _ ≤ 10 * 10 ^ k := by omega
                _ = 10 ^ (k + 1) := by rw [pow_succ]; ring
            _ ≤ m := h
      · omega
    rw [padRepr, tdiv_ofNat, decRepr, dif_neg (by omega)]
    rw [ih (m / 10) (by
        left
        rcases hlow with h | h
        · rw [pow_succ] at h
          omega
        · omega)
      (by
        rw [pow_succ] at hm
        omega)]
    simp [cdigitByte_ofNat]

lemma cprintfLen_decRepr (m : Nat) (hm : m ≤ 999999) :
    padRepr (cprintfLen (m : Int)).toNat (m : Int) = decRepr m ∧
    (cprintfLen (m : Int)).toNat = (decRepr m).length := by
  have key : ∀ k : Nat, cprintfLen (m : Int) = (k : Int) + 1 → (10 ^ k ≤ m ∨ k = 0) →
      m < 10 ^ (k + 1) →
      padRepr (cprintfLen (m : Int)).toNat (m : Int) = decRepr m ∧
      (cprintfLen (m : Int)).toNat = (decRepr m).length := by
    intro k hk hlow hhi
    have heq := padRepr_eq_decRepr k m hlow hhi
    have htn : (cprintfLen (m : Int)).toNat = k + 1 := by omega
    rw [htn]
    refine ⟨heq, ?_⟩
    rw [← heq, padRepr_length]
  by_cases h1 : m ≤ 9
  · exact key 0 (by unfold cprintfLen; split_ifs <;> omega) (by omega) (by norm_num; omega)
  · by_cases h2 : m ≤ 99
    · exact key 1 (by unfold cprintfLen; split_ifs <;> omega) (by norm_num; omega)
        (by norm_num; omega)
    · by_cases h3 : m ≤ 999
      · exact key 2 (by unfold cprintfLen; split_ifs <;> omega) (by norm_num; omega)
          (by norm_num; omega)
      · by_cases h4 : m ≤ 9999
        · exact key 3 (by unfold cprintfLen; split_ifs <;> omega) (by norm_num; omega)
            (by norm_num; omega)
        · by_cases h5 : m ≤ 99999
          · exact key 4 (by unfold cprintfLen; split_ifs <;> omega) (by norm_num; omega)
              (by norm_num; omega)
          · exact key 5 (by unfold cprintfLen; split_ifs <;> omega) (by norm_num; omega)
              (by norm_num; omega)

lemma range_map_overwriteAt (l : List Nat) (buf : Int → Nat) :
    (List.range l.length).map (fun (j : Nat) => overwriteAt buf 0 l (j : Int)) = l := by
  apply List.ext_getElem
  · simp
  · intro i h1 h2
    simp only [List.getElem_map, List.getElem_range]
    have hi : i < l.length := by simpa using h2
    simp only [overwriteAt]
    rw [if_pos (by constructor <;> omega)]
    have hcv : ((i : Int) - 0).toNat = i := by omega
    rw [hcv, List.getD_eq_getElem l 0 hi]

/-- Claim C9: for a mask containing exactly one `%` (and no NUL bytes, being a
C string) and `0 ≤ n ≤ 999999`, `cprintf` writes the mask with the `%` replaced
by the decimal representation of `n` (no leading zeros, `0` as the single
digit `0`) and returns the total number of bytes written. -/
theorem claim_C9 : ∀ (pre post : List Nat) (n : Int) (buf : Int → Nat),
    (∀ c ∈ pre, c ≠ 37 ∧ c ≠ 0) → (∀ c ∈ post, c ≠ 37 ∧ c ≠ 0) →
    0 ≤ n → n ≤ 999999 →
    (cprintf buf (pre ++ 37 :: post) n).2
        = (pre.length : Int) + (decRepr n.toNat).length + post.length ∧
    (List.range (pre.length + (decRepr n.toNat).length + post.length)).map
        (fun (j : Nat) => (cprintf buf (pre ++ 37 :: post) n).1 (j : Int))
      = pre ++ decRepr n.toNat ++ post := by
  intro pre post n buf hpre hpost hn0 hn
  have hcast : ((n.toNat : Nat) : Int) = n := Int.toNat_of_nonneg hn0
  have hm : n.toNat ≤ 999999 := by omega
  obtain ⟨hpad, hlen⟩ := cprintfLen_decRepr n.toNat hm
  rw [hcast] at hpad hlen
  have hsp := cprintf_single_percent pre post n buf hpre hpost
  rw [hsp]
  constructor
  · simp only []
    rw [hlen]
  · simp only []
    rw [hpad]
    have hL : pre.length + (decRepr n.toNat).length + post.length
        = (pre ++ decRepr n.toNat ++ post).length := by
      simp only [List.length_append]
    rw [hL, range_map_overwriteAt]

/-- Witness for C9 at mask `"x%y"` (bytes 120, 37, 121) and `n = 42`. -/
theorem claim_C9_witness :
    (cprintf (fun _ => 0) ([120] ++ 37 :: [121]) 42).2
        = (([120] : List Nat).length : Int) + ((decRepr (42 : Int).toNat).length : Nat) + (([121] : List Nat).length : Nat) ∧
    (List.range (([120] : List Nat).length + (decRepr (42 : Int).toNat).length + ([121] : List Nat).length)).map
        (fun (j : Nat) => (cprintf (fun _ => 0) ([120] ++ 37 :: [121]) 42).1 (j : Int))
      = [120] ++ decRepr (42 : Int).toNat ++ [121] :=
  claim_C9 [120] [121] 42 (fun _ => 0) (by decide) (by decide) (by decide) (by decide)

/-! The import-library builder of LibGenHelper/LibGenHelperImpl.cpp, as a
state machine whose state records the sequence of calls the builder makes
into the `ILibraryBuilder` archive emitter. -/

/-- The two architectures for which `CImportLibraryBuilder` is instantiated
(`ArchX86` / `ArchX64`, LibGenHelperImpl.cpp lines 14-33). -/
inductive Arch
  | x86
  | x64
deriving DecidableEq, Repr

/-- A COFF object requested from the import-section synthesizer
(`IImpSectionBuilder`), tagged by which `Build...` method produced it and the
arguments the builder passed (LibGenHelperImpl.cpp lines 57-104).  The
synthesizer implementation (ImpGen) is not in the source tree, so objects are
identified by these build requests. -/
inductive ImpObject
  | importDescriptor (dllName : String)
  | nullDescriptor
  | thunkByName (dllName impName funcName dllExpName : String)
  | thunkByOrdinal (dllName impName funcName : String) (ordinal : Int)
  | thunkWithHint (dllName impName funcName importName : String) (ordinal : Int)
  | nullThunk (dllName : String)
deriving DecidableEq, Repr

/-- A call made by the builder into the archive emitter `ILibraryBuilder`
(part_003: `AddObject(szName, ICoffBuilder*)` and `FillOffsets()`). -/
inductive LibCall
  | addObject (memberName : String) (obj : ImpObject)
  | fillOffsets
deriving DecidableEq, Repr

/-- One of the three `AddImportFunction...` public operations of
`IImportLibraryBuilder` with its arguments (LibGenHelperInterfaces.h). -/
inductive AddCmd
  | byName (impName funcName dllExpName : String)
  | byOrdinal (impName funcName : String) (ordinal : Int)
  | byNameWithHint (impName funcName importName : String) (ordinal : Int)
deriving DecidableEq, Repr

/-- A public builder operation after construction: an add-import call or
`Build()`. -/
inductive BCmd
  | add (c : AddCmd)
  | build
deriving DecidableEq, Repr

/-- The thunk object the builder requests for an add-import call: each
`AddImportFunction...` method passes `m_dllName` plus its own arguments to the
corresponding synthesizer method (LibGenHelperImpl.cpp lines 76-104). -/
def thunkObj (dll : String) : AddCmd → ImpObject
  | .byName imp func exp => .thunkByName dll imp func exp
  | .byOrdinal imp func n => .thunkByOrdinal dll imp func n
  | .byNameWithHint imp func impn n => .thunkWithHint dll imp func impn n

/-- State of one `CImportLibraryBuilder` instance: the constructor arguments
(all data members are per-instance, LibGenHelperImpl.cpp lines 36-42) and the
trace of calls made into its own archive emitter. -/
structure BuilderState where
  arch : Arch
  dllName : String
  memName : String
  calls : List LibCall
deriving DecidableEq, Repr

/-- The constructor `CImportLibraryBuilder(szDllName, szMemName)`
(LibGenHelperImpl.cpp lines 51-64): builds the import descriptor and the null
descriptor and adds both under `szMemName`. -/
def initBuilder (arch : Arch) (dll mem : String) : BuilderState :=
  ⟨arch, dll, mem,
    [.addObject mem (.importDescriptor dll), .addObject mem .nullDescriptor]⟩

/-- One public builder operation.  An add call requests a thunk object and
adds it under `m_memName`; `Build()` requests the null thunk, adds it under
`m_memName`, then calls `FillOffsets()` (LibGenHelperImpl.cpp lines 76-106). -/
def execB (st : BuilderState) : BCmd → BuilderState
  | .add c => { st with calls := st.calls ++ [.addObject st.memName (thunkObj st.dllName c)] }
  | .build => { st with calls :=
      st.calls ++ [.addObject st.memName (.nullThunk st.dllName), .fillOffsets] }

/-- A complete run of one builder: construction followed by a command list. -/
def runB (arch : Arch) (dll mem : String) (cmds : List BCmd) : BuilderState :=
  cmds.foldl execB (initBuilder arch dll mem)

/-- The members handed to the archive emitter, in call order. -/
def addedMembers (st : BuilderState) : List (String × ImpObject) :=
  st.calls.filterMap (fun c => match c with
    | .addObject n o => some (n, o)
    | .fillOffsets => none)

/-- The `LibCall`s a single public operation emits, given the builder's member
and DLL names. -/
def callsOf (mem dll : String) : BCmd → List LibCall
  | .add c => [.addObject mem (thunkObj dll c)]
  | .build => [.addObject mem (.nullThunk dll), .fillOffsets]

lemma execB_memName (st : BuilderState) (c : BCmd) : (execB st c).memName = st.memName := by
  cases c <;> rfl

lemma execB_dllName (st : BuilderState) (c : BCmd) : (execB st c).dllName = st.dllName := by
  cases c <;> rfl

lemma execB_arch (st : BuilderState) (c : BCmd) : (execB st c).arch = st.arch := by
  cases c <;> rfl

lemma execB_calls (st : BuilderState) (c : BCmd) :
    (execB st c).calls = st.calls ++ callsOf st.memName st.dllName c := by
  cases c <;> rfl

lemma foldl_execB_spec (cmds : List BCmd) : ∀ st : BuilderState,
    (cmds.foldl execB st).calls = st.calls ++ cmds.flatMap (callsOf st.memName st.dllName) ∧
    (cmds.foldl execB st).memName = st.memName ∧
    (cmds.foldl execB st).dllName = st.dllName ∧
    (cmds.foldl execB st).arch = st.arch := by
  induction cmds with
  | nil => intro st; simp
  | cons c cmds ih =>
    intro st
    obtain ⟨h1, h2, h3, h4⟩ := ih (execB st c)
    rw [List.foldl_cons]
    refine ⟨?_, ?_, ?_, ?_⟩
    · rw [h1, execB_memName, execB_dllName, execB_calls, List.flatMap_cons, List.append_assoc]
    · rw [h2, execB_memName]
    · rw [h3, execB_dllName]
    · rw [h4, execB_arch]

lemma runB_calls (arch : Arch) (dll mem : String) (cmds : List BCmd) :
    (runB arch dll mem cmds).calls =
      [.addObject mem (.importDescriptor dll), .addObject mem .nullDescriptor]
        ++ cmds.flatMap (callsOf mem dll) :=
  (foldl_execB_spec cmds (initBuilder arch dll mem)).1

lemma flatMap_callsOf_add (mem dll : String) (adds : List AddCmd) :
    (adds.map BCmd.add).flatMap (callsOf mem dll)
      = adds.map (fun c => LibCall.addObject mem (thunkObj dll c)) := by
  induction adds with
  | nil => rfl
  | cons c adds ih => simp [callsOf, ih]

lemma filterMap_addObject (mem dll : String) (adds : List AddCmd) :
    (adds.map (fun c => LibCall.addObject mem (thunkObj dll c))).filterMap
        (fun c => match c with
          | .addObject n o => some (n, o)
          | .fillOffsets => none)
      = adds.map (fun c => (mem, thunkObj dll c)) := by
  induction adds with
  | nil => rfl
  | cons c adds ih => simp [ih]

/-- Claim C1: a run with `n` add-import calls followed by `Build()` hands
exactly `n+3` COFF members to the archive emitter, all under the member name
given at construction, in the order import descriptor, null descriptor, the
`n` thunk members in call order, null thunk (so `n = 0` gives exactly three
members). -/
theorem claim_C1 : ∀ (arch : Arch) (dll mem : String) (adds : List AddCmd),
    addedMembers (runB arch dll mem (adds.map BCmd.add ++ [BCmd.build]))
        = (mem, ImpObject.importDescriptor dll) :: (mem, ImpObject.nullDescriptor)
            :: (adds.map (fun c => (mem, thunkObj dll c)) ++ [(mem, ImpObject.nullThunk dll)]) ∧
    (addedMembers (runB arch dll mem (adds.map BCmd.add ++ [BCmd.build]))).length
        = adds.length + 3 ∧
    (addedMembers (runB arch dll mem (adds.map BCmd.add ++ [BCmd.build]))).all
        (fun p => p.1 == mem) = true := by
  intro arch dll mem adds
  have hmain : addedMembers (runB arch dll mem (adds.map BCmd.add ++ [BCmd.build]))
      = (mem, ImpObject.importDescriptor dll) :: (mem, ImpObject.nullDescriptor)
          :: (adds.map (fun c => (mem, thunkObj dll c)) ++ [(mem, ImpObject.nullThunk dll)]) := by
    unfold addedMembers
    rw [runB_calls, List.flatMap_append, flatMap_callsOf_add]
    simp only [List.flatMap_cons, List.flatMap_nil, callsOf, List.append_nil]
    rw [List.filterMap_append, List.filterMap_append, filterMap_addObject]
    rfl
  refine ⟨hmain, ?_, ?_⟩
  · rw [hmain]
    simp
  · rw [hmain]
    simp [List.all_eq_true]

/-- Claim C2: in a run with add-import calls followed by one `Build()`, the
call trace into the archive emitter is exactly all `AddObject` calls (ending
with the null thunk appended by `Build()`) followed by a single final
`FillOffsets` call: `FillOffsets` is invoked exactly once, after every member
has been added. -/
theorem claim_C2 : ∀ (arch : Arch) (dll mem : String) (adds : List AddCmd),
    (runB arch dll mem (adds.map BCmd.add ++ [BCmd.build])).calls
        = ([.addObject mem (.importDescriptor dll), .addObject mem .nullDescriptor]
            ++ adds.map (fun c => LibCall.addObject mem (thunkObj dll c))
            ++ [.addObject mem (.nullThunk dll)]) ++ [.fillOffsets] ∧
    ((runB arch dll mem (adds.map BCmd.add ++ [BCmd.build])).calls).count .fillOffsets = 1 := by
  intro arch dll mem adds
  have hmain : (runB arch dll mem (adds.map BCmd.add ++ [BCmd.build])).calls
      = ([.addObject mem (.importDescriptor dll), .addObject mem .nullDescriptor]
          ++ adds.map (fun c => LibCall.addObject mem (thunkObj dll c))
          ++ [.addObject mem (.nullThunk dll)]) ++ [.fillOffsets] := by
    rw [runB_calls, List.flatMap_append, flatMap_callsOf_add]
    simp [callsOf]
  refine ⟨hmain, ?_⟩
  rw [hmain]
  rw [List.count_append, List.count_append, List.count_append]
  have h1 : ([LibCall.addObject mem (.importDescriptor dll),
      LibCall.addObject mem .nullDescriptor]).count .fillOffsets = 0 := by
    simp [List.count_cons, List.count_nil]
  have h2 : (adds.map (fun c => LibCall.addObject mem (thunkObj dll c))).count .fillOffsets
      = 0 := by
    rw [List.count_eq_zero]
    intro h
    obtain ⟨c, _, hc⟩ := List.mem_map.mp h
    exact LibCall.noConfusion hc
  rw [h2]
  simp [List.count_singleton, List.count_cons, List.count_nil]

/-! The archive emitter and COFF layer.  Their implementation files
(LibGen/LibImpl.cpp, CoffGen/coffImpl.cpp, ImpGen) are not in the source
tree; the definitions below are modelled from the specification. -/

/-- Bytes of an ASCII string (the development models C chars as bytes; all
names the repository handles are ASCII). -/
def strBytes (s : String) : List Nat := s.data.map Char.toNat

/-- Little-endian 2-byte encoding. -/
def le2 (n : Nat) : List Nat := [n % 256, n / 256 % 256]

/-- Little-endian 4-byte encoding. -/
def le4 (n : Nat) : List Nat := [n % 256, n / 256 % 256, n / 65536 % 256, n / 16777216 % 256]

/-- Big-endian 4-byte encoding (used by the first linker member). -/
def be4 (n : Nat) : List Nat := (le4 n).reverse

/-- Little-endian encoding in `w` bytes. -/
def leBytes (w : Nat) (v : Nat) : List Nat := (List.range w).map (fun j => v / 256 ^ j % 256)

/-- Pointer width per architecture (spec §4.3: x86 4 bytes, x64 8 bytes). -/
def ptrWidth : Arch → Nat
  | .x86 => 4
  | .x64 => 8

/-- COFF `Machine` field per architecture (spec §6). -/
def machineCode : Arch → Nat
  | .x86 => 0x14C
  | .x64 => 0x8664

/-- Modelled from the spec: §4.3, the by-ordinal IAT/ILT word — the ordinal
with the high bit of the pointer width set, little-endian, no relocation. -/
def ordinalWord (arch : Arch) (n : Int) : List Nat :=
  let w := ptrWidth arch
  leBytes w (Nat.lor ((n.emod (2 ^ (8 * w))).toNat) (2 ^ (8 * w - 1)))

/-- A section of a synthesized COFF member: name, raw data, relocation count. -/
structure MSection where
  name : String
  data : List Nat
  relocCount : Nat
deriving DecidableEq, Repr

/-- Modelled from the spec: §4.3, the `.idata$6` hint/name data — 2-byte hint,
NUL-terminated export name, padded to even length. -/
def hintNameData (hint : Nat) (exp : String) : List Nat :=
  let b : List Nat := le2 hint ++ strBytes exp ++ [0]
  b ++ (if b.length % 2 = 1 then [0] else [])

/-- Modelled from the spec: §4.3/§6, the jump-stub bytes `FF 25 00 00 00 00`
(same opcodes for x86 and x64; only the relocation kind differs). -/
def stubBytes : List Nat := [0xFF, 0x25, 0, 0, 0, 0]

/-- Modelled from the spec: §4.3 Import-Section Synthesizer — the sections of
each member family (head, null descriptor, thunk members, null thunk).  If
the thunk name is empty no `.text` stub section is emitted. -/
def objSections (arch : Arch) : ImpObject → List MSection
  | .importDescriptor dll =>
      [⟨".idata$2", List.replicate 20 0, 3⟩, ⟨".idata$6", strBytes dll ++ [0], 0⟩]
  | .nullDescriptor => [⟨".idata$3", List.replicate 20 0, 0⟩]
  | .thunkByName _ _ func exp =>
      (if func = "" then [] else [⟨".text", stubBytes, 1⟩]) ++
      [⟨".idata$5", List.replicate (ptrWidth arch) 0, 1⟩,
       ⟨".idata$4", List.replicate (ptrWidth arch) 0, 1⟩,
       ⟨".idata$6", hintNameData 0 exp, 0⟩]
  | .thunkWithHint _ _ func impn n =>
      (if func = "" then [] else [⟨".text", stubBytes, 1⟩]) ++
      [⟨".idata$5", List.replicate (ptrWidth arch) 0, 1⟩,
       ⟨".idata$4", List.replicate (ptrWidth arch) 0, 1⟩,
       ⟨".idata$6", hintNameData ((n.emod 65536).toNat) impn, 0⟩]
  | .thunkByOrdinal _ _ func n =>
      (if func = "" then [] else [⟨".text", stubBytes, 1⟩]) ++
      [⟨".idata$5", ordinalWord arch n, 0⟩,
       ⟨".idata$4", ordinalWord arch n, 0⟩]
  | .nullThunk _ =>
      [⟨".idata$5", List.replicate (ptrWidth arch) 0, 0⟩,
       ⟨".idata$4", List.replicate (ptrWidth arch) 0, 0⟩]

/-- Modelled from the spec: §4.3/§8, the external (public) symbols each member
defines: the head defines `__IMPORT_DESCRIPTOR_<dll>`; a thunk member defines
the `__imp_` public name and, when the thunk name is nonempty, the thunk
symbol; the null thunk defines `<dll>_NULL_THUNK_DATA`. -/
def publicSymbols : ImpObject → List String
  | .importDescriptor dll => ["__IMPORT_DESCRIPTOR_" ++ dll]
  | .nullDescriptor => []
  | .thunkByName _ imp func _ => imp :: (if func = "" then [] else [func])
  | .thunkWithHint _ imp func _ _ => imp :: (if func = "" then [] else [func])
  | .thunkByOrdinal _ imp func _ => imp :: (if func = "" then [] else [func])
  | .nullThunk dll => [dll ++ "_NULL_THUNK_DATA"]

/-- Modelled from the spec: a COFF member payload serialized from its machine
code, sections and public symbols (§3/§4.1; the 20-byte header, section
headers, relocation and symbol-table byte layout of the missing COFF emitter
are abbreviated to machine, section count, per-section name/size/reloc-count/
data, then the NUL-joined public names — a deterministic function of the same
inputs). -/
def sectionBytes (s : MSection) : List Nat :=
  (strBytes s.name ++ List.replicate (8 - (strBytes s.name).length) 0).take 8
    ++ le4 s.data.length ++ le2 s.relocCount ++ s.data

/-- Modelled from the spec: the full member payload (see `sectionBytes`). -/
def coffBytes (arch : Arch) (obj : ImpObject) : List Nat :=
  le2 (machineCode arch) ++ le2 (objSections arch obj).length
    ++ (objSections arch obj).flatMap sectionBytes
    ++ (publicSymbols obj).flatMap (fun s => strBytes s ++ [0])

/-- Modelled from the spec: §4.4/§7, `AddObject`'s member-name handling —
names are truncated to 15 bytes for the 16-byte archive header name field
(name terminated with `/`); names of at most 15 bytes are stored as given.
`LibImpl.cpp` is not in the source tree. -/
def memberName15 (s : String) : String :=
  if 15 < s.data.length then ⟨s.data.take 15⟩ else s

/-- Pad a byte list with ASCII spaces to width `w` (archive header fields). -/
def padField (l : List Nat) (w : Nat) : List Nat := (l ++ List.replicate (w - l.length) 32).take w

/-- Modelled from the spec: §4.2/§6, the 60-byte archive member header —
name field (16), date `0` (12), uid (6), gid (6), mode `0` (8), decimal size
(10), end marker bytes 0x60 0x0A. -/
def arHeader (nameField : List Nat) (size : Nat) : List Nat :=
  padField nameField 16 ++ padField [48] 12 ++ padField [] 6 ++ padField [] 6
    ++ padField [48] 8 ++ padField (decRepr size) 10 ++ [96, 10]

/-- Pad a payload to even length with a single `\n` byte (spec §4.2). -/
def evenPad (l : List Nat) : List Nat := l ++ (if l.length % 2 = 1 then [10] else [])

/-- ASCII lower-casing of a byte (for the case-insensitive symbol sort). -/
def lowerB (b : Nat) : Nat := if 65 ≤ b ∧ b ≤ 90 then b + 32 else b

/-- Case-insensitive lexicographic comparison on byte lists. -/
def lexLe : List Nat → List Nat → Bool
  | [], _ => true
  | _ :: _, [] => false
  | x :: xs, y :: ys =>
      if lowerB x < lowerB y then true
      else if lowerB y < lowerB x then false
      else lexLe xs ys

/-- Insertion into a list sorted by `lexLe` on the first component. -/
def insertSym (p : List Nat × Nat) : List (List Nat × Nat) → List (List Nat × Nat)
  | [] => [p]
  | q :: rest => if lexLe p.1 q.1 then p :: q :: rest else q :: insertSym p rest

/-- Insertion sort by `lexLe` on the first component (spec §4.2: the second
linker member's symbols are sorted case-insensitively by name). -/
def sortSyms : List (List Nat × Nat) → List (List Nat × Nat)
  | [] => []
  | p :: rest => insertSym p (sortSyms rest)

/-- Member offsets: the first user member starts after the signature and the
two linker members; each further member after the previous one's 60-byte
header and even-padded payload (spec §4.2 fill-offsets step 3). -/
def scanOffsets : Nat → List Nat → List Nat
  | _, [] => []
  | base, s :: rest => base :: scanOffsets (base + 60 + s + s % 2) rest

/-- Modelled from the spec: §4.2, the Archive Emitter.  Serializes the member
list into the `!<arch>\n` archive: first linker member (big-endian symbol
count and offsets, NUL-joined names in discovery order), second linker member
(little-endian member count, member offsets, symbol count, 1-based member
index per symbol with symbols sorted case-insensitively, names), then each
user member with its 60-byte header and even-padded COFF payload.  The two
linker members' sizes are computed from the symbol count and name bytes
before offsets are assigned (the two-pass fix-point). -/
def archiveBytes (arch : Arch) (members : List (String × ImpObject)) : List Nat :=
  let payloads := members.map (fun m => (m.1, coffBytes arch m.2, publicSymbols m.2))
  let allSyms : List (List Nat) := payloads.flatMap (fun p => p.2.2.map strBytes)
  let K := allSyms.length
  let nameBlob := allSyms.flatMap (fun s => s ++ [0])
  let M := members.length
  let symIdx : List (List Nat × Nat) :=
    ((List.range M).zip payloads).flatMap
      (fun ip => ip.2.2.2.map (fun s => (strBytes s, ip.1 + 1)))
  let sorted := sortSyms symIdx
  let firstSize := 4 + 4 * K + nameBlob.length
  let secondSize := 4 + 4 * M + 4 + 2 * K
      + (sorted.flatMap (fun p => p.1 ++ [0])).length
  let base := 8 + 60 + firstSize + firstSize % 2 + 60 + secondSize + secondSize % 2
  let sizes := payloads.map (fun p => p.2.1.length)
  let offsets := scanOffsets base sizes
  let symOffs : List (List Nat × Nat) :=
    (offsets.zip payloads).flatMap (fun op => op.2.2.2.map (fun s => (strBytes s, op.1)))
  let firstMember := be4 K ++ symOffs.flatMap (fun p => be4 p.2) ++ nameBlob
  let secondMember := le4 M ++ offsets.flatMap le4 ++ le4 K
      ++ sorted.flatMap (fun p => le2 p.2) ++ sorted.flatMap (fun p => p.1 ++ [0])
  [33, 60, 97, 114, 99, 104, 62, 10]
    ++ arHeader [47] firstSize ++ evenPad firstMember
    ++ arHeader [47] secondSize ++ evenPad secondMember
    ++ payloads.flatMap (fun p =>
        arHeader (strBytes (memberName15 p.1) ++ [47]) p.2.1.length ++ evenPad p.2.1)

/-- `GetRawData` of a builder (delegated to the archive emitter,
LibGenHelperImpl.cpp line 108): the serialized archive of the members added
so far. -/
def rawData (st : BuilderState) : List Nat := archiveBytes st.arch (addedMembers st)

/-- `GetDataLength` of a builder (LibGenHelperImpl.cpp line 110). -/
def dataLength (st : BuilderState) : Nat := (rawData st).length

/-- Claim C5: `AddObject` accepts a member name of at most 15 bytes without
truncation; only a name longer than 15 bytes is the name-too-long condition,
and it is truncated to exactly 15 bytes. -/
theorem claim_C5 : ∀ s : String,
    (s.length ≤ 15 → memberName15 s = s) ∧
    (15 < s.length → (memberName15 s).length = 15 ∧ memberName15 s = ⟨s.data.take 15⟩) := by
  intro s
  constructor
  · intro h
    unfold memberName15
    rw [if_neg (by simp only [String.length] at h; omega)]
  · intro h
    simp only [String.length] at h
    unfold memberName15
    rw [if_pos h]
    refine ⟨?_, rfl⟩
    simp only [String.length, List.length_take]
    omega

/-- Witness for C5: a 9-byte name is kept as is; a 16-byte name is truncated
to its first 15 bytes. -/
theorem claim_C5_witness :
    memberName15 "short.dll" = "short.dll" ∧
    ((memberName15 "0123456789abcdef").length = 15 ∧
      memberName15 "0123456789abcdef" = ⟨("0123456789abcdef" : String).data.take 15⟩) :=
  ⟨(claim_C5 "short.dll").1 (by decide), (claim_C5 "0123456789abcdef").2 (by decide)⟩

/-! Two concurrently used builder instances, modelled as a pair of builder
states acted on by tagged commands.  All `CImportLibraryBuilder` data members
are per-instance (LibGenHelperImpl.cpp lines 37-42); the section builders
obtained from `ArchTraits<Arch>::GetImpSectionBuilder` (lines 19-33) are
modelled as stateless, per spec §5 ("no shared mutable state"). -/

/-- A pair of independent builder instances. -/
structure TwoBuilders where
  b1 : BuilderState
  b2 : BuilderState
deriving DecidableEq, Repr

/-- A command tagged with the instance it is issued on. -/
def stepW (w : TwoBuilders) : Sum BCmd BCmd → TwoBuilders
  | .inl c => { w with b1 := execB w.b1 c }
  | .inr c => { w with b2 := execB w.b2 c }

/-- Execution of an interleaved command sequence on the pair. -/
def execW (w : TwoBuilders) (zs : List (Sum BCmd BCmd)) : TwoBuilders :=
  zs.foldl stepW w

/-- `Interleaves xs ys zs`: `zs` is an order-preserving interleaving of `xs`
and `ys`. -/
inductive Interleaves {α : Type} : List α → List α → List α → Prop
  | nil : Interleaves [] [] []
  | left {x : α} {xs ys zs : List α} :
      Interleaves xs ys zs → Interleaves (x :: xs) ys (x :: zs)
  | right {y : α} {xs ys zs : List α} :
      Interleaves xs ys zs → Interleaves xs (y :: ys) (y :: zs)

lemma execW_interleave : ∀ {zs as bs : List (Sum BCmd BCmd)},
    Interleaves as bs zs → ∀ (xs ys : List BCmd), as = xs.map Sum.inl → bs = ys.map Sum.inr →
    ∀ w : TwoBuilders, execW w zs = ⟨xs.foldl execB w.b1, ys.foldl execB w.b2⟩ := by
  intro zs as bs h
  induction h with
  | nil =>
    intro xs ys hx hy w
    have hxs : xs = [] := by
      cases xs with
      | nil => rfl
      | cons c cs => simp at hx
    have hys : ys = [] := by
      cases ys with
      | nil => rfl
      | cons c cs => simp at hy
    subst hxs; subst hys
    rfl
  | @left x as bs zs h ih =>
    intro xs ys hx hy w
    cases xs with
    | nil => simp at hx
    | cons c xs =>
      simp only [List.map_cons, List.cons.injEq] at hx
      obtain ⟨hx1, hx2⟩ := hx
      subst hx1
      rw [show execW w (Sum.inl c :: zs) = execW (stepW w (Sum.inl c)) zs from rfl,
        ih xs ys hx2 hy]
      rfl
  | @right y as bs zs h ih =>
    intro xs ys hx hy w
    cases ys with
    | nil => simp at hy
    | cons c ys =>
      simp only [List.map_cons, List.cons.injEq] at hy
      obtain ⟨hy1, hy2⟩ := hy
      subst hy1
      rw [show execW w (Sum.inr c :: zs) = execW (stepW w (Sum.inr c)) zs from rfl,
        ih xs ys hx hy2]
      rfl

/-- Claim C7: interleaving the call sequences of two builder instances in any
order yields exactly the two archives of the isolated runs — the instances
share no mutable state, including for different DLLs with identical symbol
names. -/
theorem claim_C7 : ∀ (a1 : Arch) (d1 m1 : String) (c1 : List BCmd)
    (a2 : Arch) (d2 m2 : String) (c2 : List BCmd) (zs : List (Sum BCmd BCmd)),
    Interleaves (c1.map Sum.inl) (c2.map Sum.inr) zs →
    execW ⟨initBuilder a1 d1 m1, initBuilder a2 d2 m2⟩ zs
        = ⟨runB a1 d1 m1 c1, runB a2 d2 m2 c2⟩ ∧
    rawData (execW ⟨initBuilder a1 d1 m1, initBuilder a2 d2 m2⟩ zs).b1
        = rawData (runB a1 d1 m1 c1) ∧
    rawData (execW ⟨initBuilder a1 d1 m1, initBuilder a2 d2 m2⟩ zs).b2
        = rawData (runB a2 d2 m2 c2) := by
  intro a1 d1 m1 c1 a2 d2 m2 c2 zs h
  have hmain := execW_interleave h c1 c2 rfl rfl ⟨initBuilder a1 d1 m1, initBuilder a2 d2 m2⟩
  refine ⟨hmain, ?_, ?_⟩ <;> (rw [hmain]; rfl)

/-- Witness for C7 at a concrete interleaving: two one-symbol builders for
different DLLs with the identical symbol name, commands interleaved. -/
theorem claim_C7_witness :
    execW ⟨initBuilder Arch.x64 "a.dll" "a.dll", initBuilder Arch.x86 "b.dll" "b.dll"⟩
        [Sum.inl (BCmd.add (AddCmd.byName "__imp_F" "F" "F")), Sum.inr (BCmd.add (AddCmd.byName "__imp_F" "F" "F")),
         Sum.inr BCmd.build, Sum.inl BCmd.build]
        = ⟨runB Arch.x64 "a.dll" "a.dll" [BCmd.add (AddCmd.byName "__imp_F" "F" "F"), BCmd.build],
           runB Arch.x86 "b.dll" "b.dll" [BCmd.add (AddCmd.byName "__imp_F" "F" "F"), BCmd.build]⟩ ∧
    rawData (execW ⟨initBuilder Arch.x64 "a.dll" "a.dll", initBuilder Arch.x86 "b.dll" "b.dll"⟩
        [Sum.inl (BCmd.add (AddCmd.byName "__imp_F" "F" "F")), Sum.inr (BCmd.add (AddCmd.byName "__imp_F" "F" "F")),
         Sum.inr BCmd.build, Sum.inl BCmd.build]).b1
        = rawData (runB Arch.x64 "a.dll" "a.dll" [BCmd.add (AddCmd.byName "__imp_F" "F" "F"), BCmd.build]) ∧
    rawData (execW ⟨initBuilder Arch.x64 "a.dll" "a.dll", initBuilder Arch.x86 "b.dll" "b.dll"⟩
        [Sum.inl (BCmd.add (AddCmd.byName "__imp_F" "F" "F")), Sum.inr (BCmd.add (AddCmd.byName "__imp_F" "F" "F")),
         Sum.inr BCmd.build, Sum.inl BCmd.build]).b2
        = rawData (runB Arch.x86 "b.dll" "b.dll" [BCmd.add (AddCmd.byName "__imp_F" "F" "F"), BCmd.build]) :=
  claim_C7 Arch.x64 "a.dll" "a.dll" [BCmd.add (AddCmd.byName "__imp_F" "F" "F"), BCmd.build]
    Arch.x86 "b.dll" "b.dll" [BCmd.add (AddCmd.byName "__imp_F" "F" "F"), BCmd.build]
    [Sum.inl (BCmd.add (AddCmd.byName "__imp_F" "F" "F")), Sum.inr (BCmd.add (AddCmd.byName "__imp_F" "F" "F")),
     Sum.inr BCmd.build, Sum.inl BCmd.build]
    (Interleaves.left (Interleaves.right (Interleaves.right (Interleaves.left Interleaves.nil))))

/-- Claim C6: two builder instances given the same DLL name, member name,
architecture and command sequence produce archives with the same
`GetDataLength` and byte-identical `GetRawData`, under any interleaving of
the two runs. -/
theorem claim_C6 : ∀ (arch : Arch) (dll mem : String) (cmds : List BCmd)
    (zs : List (Sum BCmd BCmd)),
    Interleaves (cmds.map Sum.inl) (cmds.map Sum.inr) zs →
    dataLength (execW ⟨initBuilder arch dll mem, initBuilder arch dll mem⟩ zs).b1
        = dataLength (execW ⟨initBuilder arch dll mem, initBuilder arch dll mem⟩ zs).b2 ∧
    rawData (execW ⟨initBuilder arch dll mem, initBuilder arch dll mem⟩ zs).b1
        = rawData (execW ⟨initBuilder arch dll mem, initBuilder arch dll mem⟩ zs).b2 := by
  intro arch dll mem cmds zs h
  have hmain := execW_interleave h cmds cmds rfl rfl
    ⟨initBuilder arch dll mem, initBuilder arch dll mem⟩
  rw [hmain]
  exact ⟨rfl, rfl⟩

/-- Witness for C6: a one-symbol x64 build issued twice, interleaved. -/
theorem claim_C6_witness :
    dataLength (execW ⟨initBuilder Arch.x64 "k.dll" "k.dll", initBuilder Arch.x64 "k.dll" "k.dll"⟩
        [Sum.inl (BCmd.add (AddCmd.byOrdinal "__imp_P" "" 17)), Sum.inr (BCmd.add (AddCmd.byOrdinal "__imp_P" "" 17)),
         Sum.inl BCmd.build, Sum.inr BCmd.build]).b1
        = dataLength (execW ⟨initBuilder Arch.x64 "k.dll" "k.dll", initBuilder Arch.x64 "k.dll" "k.dll"⟩
        [Sum.inl (BCmd.add (AddCmd.byOrdinal "__imp_P" "" 17)), Sum.inr (BCmd.add (AddCmd.byOrdinal "__imp_P" "" 17)),
         Sum.inl BCmd.build, Sum.inr BCmd.build]).b2 ∧
    rawData (execW ⟨initBuilder Arch.x64 "k.dll" "k.dll", initBuilder Arch.x64 "k.dll" "k.dll"⟩
        [Sum.inl (BCmd.add (AddCmd.byOrdinal "__imp_P" "" 17)), Sum.inr (BCmd.add (AddCmd.byOrdinal "__imp_P" "" 17)),
         Sum.inl BCmd.build, Sum.inr BCmd.build]).b1
        = rawData (execW ⟨initBuilder Arch.x64 "k.dll" "k.dll", initBuilder Arch.x64 "k.dll" "k.dll"⟩
        [Sum.inl (BCmd.add (AddCmd.byOrdinal "__imp_P" "" 17)), Sum.inr (BCmd.add (AddCmd.byOrdinal "__imp_P" "" 17)),
         Sum.inl BCmd.build, Sum.inr BCmd.build]).b2 :=
  claim_C6 Arch.x64 "k.dll" "k.dll" [BCmd.add (AddCmd.byOrdinal "__imp_P" "" 17), BCmd.build]
    [Sum.inl (BCmd.add (AddCmd.byOrdinal "__imp_P" "" 17)), Sum.inr (BCmd.add (AddCmd.byOrdinal "__imp_P" "" 17)),
     Sum.inl BCmd.build, Sum.inr BCmd.build]
    (Interleaves.left (Interleaves.right (Interleaves.left (Interleaves.right Interleaves.nil))))

/-! The JSON-driven driver of MakeImpLib/main.cpp (lines 54-108). -/

/-- One entry of the input JSON `symbols` array as main.cpp reads it
(lines 74-79): every field is read unconditionally. -/
structure JSymbol where
  cconv : String
  name : String
  ord : Int
  thunk : String
  pubname : String
deriving DecidableEq, Repr

/-- The input JSON as main.cpp reads it (lines 62-64). -/
structure JConfig where
  dllname : String
  arch : Int
  symbols : List JSymbol
deriving DecidableEq, Repr

/-- The builder call made for one symbol (main.cpp lines 81-85): a nonempty
`name` becomes `AddImportFunctionByName(pubname, thunk, name)`, an empty one
`AddImportFunctionByOrdinal(pubname, thunk, ord)`.  `cconv` is read (line 75)
but not used. -/
def symbolCmd (s : JSymbol) : AddCmd :=
  if s.name ≠ "" then .byName s.pubname s.thunk s.name
  else .byOrdinal s.pubname s.thunk s.ord

/-- The architecture selection of main.cpp lines 67-71: `arch == 64` yields
the x64 builder, anything else the x86 builder. -/
def mainArch (cfg : JConfig) : Arch := if cfg.arch = 64 then .x64 else .x86

/-- The full builder run main.cpp performs: construction with
`(dllname, dllname)`, one add call per symbol, then `Build()`. -/
def mainBuilder (cfg : JConfig) : BuilderState :=
  runB (mainArch cfg) cfg.dllname cfg.dllname
    (cfg.symbols.map (fun s => BCmd.add (symbolCmd s)) ++ [BCmd.build])

/-- The archive bytes main.cpp writes to the output file via
`GetDataLength`/`GetRawData` (lines 90-100). -/
def mainOutput (cfg : JConfig) : List Nat := rawData (mainBuilder cfg)

lemma archiveBytes_take8 (arch : Arch) (members : List (String × ImpObject)) :
    (archiveBytes arch members).take 8 = [33, 60, 97, 114, 99, 104, 62, 10] := by
  unfold archiveBytes
  rfl

/-- Counterexample for claim C4: for the input `{dllname := "a.dll",
arch := 7, symbols := []}` — an architecture that is neither 32 nor 64 —
main.cpp reports no malformed-input error: it silently selects the x86
builder and constructs a complete archive (starting with the archive
signature). -/
theorem claim_C4_counterexample :
    mainArch ⟨"a.dll", 7, []⟩ = Arch.x86 ∧
    (mainOutput ⟨"a.dll", 7, []⟩).take 8 = [33, 60, 97, 114, 99, 104, 62, 10] ∧
    mainOutput ⟨"a.dll", 7, []⟩ ≠ [] := by
  refine ⟨rfl, archiveBytes_take8 _ _, ?_⟩
  intro h
  have := congrArg List.length h
  rw [mainOutput, rawData] at this
  revert this
  decide

/-- Claim C4 (amended): the program performs no architecture validation and
no missing-name-and-ordinal check: every `arch ≠ 64` (including values that
are neither 32 nor 64) selects the x86 builder, a symbol with empty `name` is
routed to the by-ordinal call, and a full archive is constructed with no
error reported. -/
theorem claim_C4 : ∀ cfg : JConfig, cfg.arch ≠ 64 →
    mainArch cfg = Arch.x86 ∧
    (mainOutput cfg).take 8 = [33, 60, 97, 114, 99, 104, 62, 10] ∧
    (∀ s : JSymbol, s.name = "" → symbolCmd s = .byOrdinal s.pubname s.thunk s.ord) := by
  intro cfg harch
  refine ⟨?_, archiveBytes_take8 _ _, ?_⟩
  · unfold mainArch
    rw [if_neg harch]
  · intro s hs
    unfold symbolCmd
    rw [if_neg (by simp [hs])]

/-- Witness for the amended C4 at the concrete arch-7 input. -/
theorem claim_C4_witness :
    mainArch ⟨"a.dll", 7, [⟨"STDCALL", "", 3, "T", "__imp_T"⟩]⟩ = Arch.x86 ∧
    (mainOutput ⟨"a.dll", 7, [⟨"STDCALL", "", 3, "T", "__imp_T"⟩]⟩).take 8
        = [33, 60, 97, 114, 99, 104, 62, 10] ∧
    (∀ s : JSymbol, s.name = "" → symbolCmd s = .byOrdinal s.pubname s.thunk s.ord) :=
  claim_C4 ⟨"a.dll", 7, [⟨"STDCALL", "", 3, "T", "__imp_T"⟩]⟩ (by decide)

/-- Two symbol records that agree on every field main.cpp uses, differing at
most in `cconv`. -/
def sameExceptCconv (a b : JSymbol) : Prop :=
  a.name = b.name ∧ a.ord = b.ord ∧ a.thunk = b.thunk ∧ a.pubname = b.pubname

lemma symbolCmd_cconv {a b : JSymbol} (h : sameExceptCconv a b) : symbolCmd a = symbolCmd b := by
  obtain ⟨h1, h2, h3, h4⟩ := h
  unfold symbolCmd
  rw [h1, h2, h3, h4]

/-- Claim C8: two input JSONs that differ only in the symbols' `cconv` field
values produce byte-identical output archives — `cconv` is read but has no
effect on the emitted bytes. -/
theorem claim_C8 : ∀ cfg1 cfg2 : JConfig, cfg1.dllname = cfg2.dllname →
    cfg1.arch = cfg2.arch → List.Forall₂ sameExceptCconv cfg1.symbols cfg2.symbols →
    mainOutput cfg1 = mainOutput cfg2 := by
  intro cfg1 cfg2 hdll harch hsyms
  have hgen : ∀ {l1 l2 : List JSymbol}, List.Forall₂ sameExceptCconv l1 l2 →
      l1.map (fun s => BCmd.add (symbolCmd s)) = l2.map (fun s => BCmd.add (symbolCmd s)) := by
    intro l1 l2 h
    induction h with
    | nil => rfl
    | cons h _ ih => simp [symbolCmd_cconv h, ih]
  unfold mainOutput mainBuilder mainArch
  rw [hdll, harch, hgen hsyms]

/-- Witness for C8: the same one-symbol x64 input with `cconv` `"STDCALL"`
versus `"CDECL"` yields identical archives. -/
theorem claim_C8_witness :
    mainOutput ⟨"k.dll", 64, [⟨"STDCALL", "ExitProcess", 1, "ExitProcess", "__imp_ExitProcess"⟩]⟩
      = mainOutput ⟨"k.dll", 64, [⟨"CDECL", "ExitProcess", 1, "ExitProcess", "__imp_ExitProcess"⟩]⟩ :=
  claim_C8 ⟨"k.dll", 64, [⟨"STDCALL", "ExitProcess", 1, "ExitProcess", "__imp_ExitProcess"⟩]⟩
    ⟨"k.dll", 64, [⟨"CDECL", "ExitProcess", 1, "ExitProcess", "__imp_ExitProcess"⟩]⟩
    rfl rfl (List.Forall₂.cons ⟨rfl, rfl, rfl, rfl⟩ List.Forall₂.nil)

/-! The PE-parsing frontends dll2def.cpp and part_004 (dumpsyms), embedded
over an explicit file/stream model, specialised to the `/COMPACT` switch.
In compact mode the `if (!compact)` comment/forwarder blocks of both sources
are skipped, so they are not embedded; dll2def's locals `dll_name`,
`dll_name_len` and dumpsyms' `dll_path`/`dll_name` are used only in those
blocks.  Indeterminate initial values of the locals `buf`, `pub_name`, `i`
and `ordinal` (read before full initialization only on truncated files) are
modelled as explicit parameters. -/

/-- Error codes of dll2def.cpp / part_004 (`enum ERR_CODES`). -/
def ERR_OK : Nat := 0

def ERR_FILE_NOT_FOUND : Nat := 1

def ERR_OUTPUT : Nat := 2

def ERR_BAD_FORMAT : Nat := 3

def ERR_NO_EXPORT : Nat := 4

def ERR_NO_FREE_MEM : Nat := 5

/-- `#define MOD_NO 0` (both sources). -/
def MOD_NO : Nat := 0

/-- C uint32 addition. -/
def u32add (a b : Nat) : Nat := (a + b) % U32

/-- C uint32 subtraction (left operand assumed already reduced mod 2^32). -/
def u32sub (a b : Nat) : Nat := (a + U32 - b % U32) % U32

/-- State of the `std::ifstream`: read position and whether a read has failed
(failbit; a failed stream ignores further seeks and reads, as in C++). -/
structure CStream where
  pos : Nat
  failed : Bool
deriving DecidableEq, Repr

/-- Result of `istream::read`: the bytes actually read, `gcount()`, and the
stream afterwards.  Reading past the end delivers the available bytes and
sets the fail state. -/
structure ReadResult where
  bytes : List Nat
  g : Nat
  strm : CStream
deriving Repr

/-- `hFile.read(dst, n)` over the file byte list. -/
def readS (f : List Nat) (s : CStream) (n : Nat) : ReadResult :=
  if s.failed then ⟨[], 0, s⟩
  else
    let g := min n (f.length - s.pos)
    ⟨(f.drop s.pos).take g, g, ⟨s.pos + g, decide (g < n)⟩⟩

/-- `hFile.seekg(p, std::ios::beg)`: a no-op on a failed stream. -/
def seekBegS (s : CStream) (p : Nat) : CStream := if s.failed then s else ⟨p, false⟩

/-- `hFile.seekg(off, std::ios::cur)`: a no-op on a failed stream. -/
def seekCurS (s : CStream) (off : Nat) : CStream :=
  if s.failed then s else ⟨s.pos + off, false⟩

/-- Write the bytes just read into the `buf` array (always at offset 0, as
both sources do). -/
def writeBytesN (m : Nat → Nat) (b : List Nat) : Nat → Nat :=
  fun j => if j < b.length then b.getD j 0 % 256 else m j

/-- Write the bytes just read into the `pub_name` array (offset 0). -/
def writeBytesI (m : Int → Nat) (b : List Nat) : Int → Nat :=
  fun j => if 0 ≤ j ∧ j < (b.length : Int) then b.getD j.toNat 0 % 256 else m j

/-- `std::memset(buf, 0, 40)`. -/
def memset40 (m : Nat → Nat) : Nat → Nat := fun j => if j < 40 then 0 else m j

/-- `*reinterpret_cast<uint8_t *>(buf + off)`. -/
def u8m (m : Nat → Nat) (off : Nat) : Nat := m off % 256

/-- `*reinterpret_cast<uint16_t *>(buf + off)` (little-endian). -/
def u16m (m : Nat → Nat) (off : Nat) : Nat := m off % 256 + 256 * (m (off + 1) % 256)

/-- `*reinterpret_cast<uint32_t *>(buf + off)` (little-endian). -/
def u32m (m : Nat → Nat) (off : Nat) : Nat :=
  m off % 256 + 256 * (m (off + 1) % 256) + 65536 * (m (off + 2) % 256)
    + 16777216 * (m (off + 3) % 256)

/-- A little-endian uint32 read from a byte list (the 8-byte read into
`export_dir` is length-checked, so its fields come from the list). -/
def u32l (b : List Nat) (off : Nat) : Nat :=
  b.getD off 0 % 256 + 256 * (b.getD (off + 1) 0 % 256) + 65536 * (b.getD (off + 2) 0 % 256)
    + 16777216 * (b.getD (off + 3) 0 % 256)

/-- The value of the uint32 local `i` after `hFile.read((char*)&i, 4)`: a
partial read replaces only the low `gcount()` bytes (little-endian), keeping
the stale high bytes of the previous value. -/
def u32mix (old : Nat) (b : List Nat) : Nat :=
  (if 0 < b.length then b.getD 0 0 % 256 else old % 256)
  + 256 * (if 1 < b.length then b.getD 1 0 % 256 else old / 256 % 256)
  + 65536 * (if 2 < b.length then b.getD 2 0 % 256 else old / 65536 % 256)
  + 16777216 * (if 3 < b.length then b.getD 3 0 % 256 else old / 16777216 % 256)

/-- The value of the uint16 local `ordinal` after `hFile.read((char*)&ordinal, 2)`. -/
def u16mix (old : Nat) (b : List Nat) : Nat :=
  (if 0 < b.length then b.getD 0 0 % 256 else old % 256)
  + 256 * (if 1 < b.length then b.getD 1 0 % 256 else old / 256 % 256)

/-- `std::strlen(pub_name)`: index of the first NUL in the 80-byte buffer
(the code always stores a terminator within the first 78 bytes before
calling `strlen`). -/
def cstrlen (m : Int → Nat) : Nat :=
  ((List.range 80).takeWhile (fun (j : Nat) => m (j : Int) != 0)).length

/-- Bytes of the output fragment `"include 'implib"`. -/
def inclHead : List Nat := [105, 110, 99, 108, 117, 100, 101, 32, 39, 105, 109, 112, 108, 105, 98]

/-- Bytes of the output fragment `".inc'\n\n"`. -/
def inclTail : List Nat := [46, 105, 110, 99, 39, 10, 10]

/-- Bytes of the output fragment `"implib "`. -/
def implibBytes : List Nat := [105, 109, 112, 108, 105, 98, 32]

/-- Bytes of the output fragment `", "`. -/
def commaBytes : List Nat := [44, 32]

/-- Bytes of the output fragment `", STDCALL, 0, "`. -/
def stdcallBytes : List Nat := [44, 32, 83, 84, 68, 67, 65, 76, 76, 44, 32, 48, 44, 32]

/-- Bytes of the `cprintf` mask `"ord.%"` (dll2def fallback). -/
def ordMask : List Nat := [111, 114, 100, 46, 37]

/-- Bytes of `"ord."` (dumpsyms stringstream fallback). -/
def ordBytes : List Nat := [111, 114, 100, 46]

/-- Result of the part of `parse_pe` before the name-pointer loop: stream,
section list, `ordinal_base`, the loop count (the reused `num_sections`),
`psymbols_array`, `ordinals_array`, and the output written so far. -/
structure PePre where
  strm : CStream
  secs : List RVA2FO
  ordinal_base : Nat
  cnt : Nat
  psymbols : Nat
  ordinals : Nat
  out : List Nat
deriving Repr

/-- State of one iteration of the name-pointer loop: stream, the two array
cursors, the `pub_name` buffer, the locals `i` and `ordinal`, and the output
so far. -/
structure PeSym where
  strm : CStream
  psym : Nat
  oarr : Nat
  pub : Int → Nat
  iv : Nat
  ordv : Nat
  out : List Nat

namespace PeParse

/-- The section-header loading loop (`while (num_sections--)`), textually
identical in dll2def.cpp lines 164-181 and part_004 lines 165-182: reads 0x28
bytes per section into `buf`, appends `{VirtualAddress, VirtualSize,
FileOffset}` to the linked list (appended at the tail via `current_node`).
The `ERR_NO_FREE_MEM` branch guards `new` returning null, which cannot
happen (`new` throws); it is not reachable. -/
def secLoop (f : List Nat) : Nat → CStream → (Nat → Nat) → List RVA2FO →
    Except Nat (CStream × (Nat → Nat) × List RVA2FO)
  | 0, s, buf, secs => .ok (s, buf, secs)
  | k + 1, s, buf, secs =>
      let r := readS f s 0x28
      let buf2 := writeBytesN buf r.bytes
      if r.g ≠ 0x28 then .error ERR_BAD_FORMAT
      else secLoop f k r.strm buf2
        (secs ++ [⟨u32m buf2 0x0C, u32m buf2 0x08, u32m buf2 0x14⟩])

/-- The part of `parse_pe` between the section-header loop and the
name-pointer loop (dll2def.cpp lines 183-211, part_004 lines 184-212,
textually identical): map the export directory RVA, read the export directory
table (zero-filled when `VirtualSize < 40`), extract its fields and check
them.  `sbs` is the stream/buffer/section-list state after the loop. -/
def prelude2 (f : List Nat) (edVA edVS : Nat) (out1 : List Nat)
    (sbs : CStream × (Nat → Nat) × List RVA2FO) : Except (Nat × List Nat) PePre :=
  let s4 := sbs.1
  let buf3 := sbs.2.1
  let secs := sbs.2.2
  let edFO := do_RVA_2_FileOffset secs edVA
  if edFO = 0 then .error (ERR_BAD_FORMAT, out1) else
  let s5 := seekBegS s4 edFO
  let aux5 := if edVS < 40 then edVS else 40
  let buf4 := if edVS < 40 then memset40 buf3 else buf3
  let r4 := readS f s5 aux5
  let buf5 := writeBytesN buf4 r4.bytes
  let ordinal_base := u16m buf5 0x10
  let num_pointers := u32m buf5 0x14
  let cnt := u32m buf5 0x18
  let pointers_array := do_RVA_2_FileOffset secs (u32m buf5 0x1C)
  let psymbols_array := do_RVA_2_FileOffset secs (u32m buf5 0x20)
  let ordinals_array := do_RVA_2_FileOffset secs (u32m buf5 0x24)
  if num_pointers = 0 ∨ cnt = 0 ∨ pointers_array = 0 ∨ psymbols_array = 0
      ∨ ordinals_array = 0 then
    .error (ERR_NO_EXPORT, out1)
  else
    .ok ⟨r4.strm, secs, ordinal_base, cnt, psymbols_array, ordinals_array, out1⟩

/-- The part of `parse_pe` before the name-pointer loop, textually identical
in dll2def.cpp lines 106-211 and part_004 lines 99-212 (compact mode; the
whole prelude writes at most the `include` header line).  The nested
PE32-magic check `if (size > 2) { aux = ...; if (bad) return; if (0x20B)
is_PE32plus = 1; }` is flattened into one error test plus one value test;
the tail after the section loop is `prelude2`. -/
def prelude (f : List Nat) (buf0 : Nat → Nat) : Except (Nat × List Nat) PePre :=
  let r1 := readS f ⟨0, false⟩ 0x40
  let buf1 := writeBytesN buf0 r1.bytes
  if r1.g ≠ 0x40 then .error (ERR_BAD_FORMAT, []) else
  let aux1 := u32m buf1 0x3C
  let s1 := seekBegS r1.strm aux1
  let file_pos1 := u32add aux1 0x1A
  let r2 := readS f s1 0x1A
  let buf2 := writeBytesN buf1 r2.bytes
  if r2.g ≠ 0x1A ∨ u32m buf2 0 ≠ 0x4550 then .error (ERR_BAD_FORMAT, []) else
  let x64 := u16m buf2 4 == 0x8664
  let num_sections := u8m buf2 6
  let size_opt := u16m buf2 0x14
  if 2 < size_opt ∧ u16m buf2 0x18 ≠ 0x10B ∧ u16m buf2 0x18 ≠ 0x20B then
    .error (ERR_BAD_FORMAT, [])
  else
  let is_PE32plus : Nat := if 2 < size_opt ∧ u16m buf2 0x18 = 0x20B then 1 else 0
  let out1 := inclHead ++ (if x64 then [54, 52] else []) ++ inclTail
  let aux3 : Nat := if is_PE32plus = 1 then 0x78 else 0x68
  if size_opt < aux3 then .error (ERR_NO_EXPORT, out1) else
  let aux4 := aux3 - 0xA
  let file_pos2 := u32add file_pos1 aux4
  let s2 := seekCurS r2.strm aux4
  let file_pos3 := u32sub (u32add (u32sub file_pos2 aux4) size_opt) 2
  let r3 := readS f s2 8
  if r3.g ≠ 8 then .error (ERR_BAD_FORMAT, out1) else
  let edVA := u32l r3.bytes 0
  let edVS := u32l r3.bytes 4
  if edVA = 0 ∨ edVS = 0 then .error (ERR_NO_EXPORT, out1) else
  let s3 := seekBegS r3.strm file_pos3
  match secLoop f num_sections s3 buf2 [] with
  | .error e => .error (e, out1)
  | .ok sbs => prelude2 f edVA edVS out1 sbs

end PeParse

namespace Dll2def

/-- One iteration of the name-pointer loop of dll2def.cpp lines 214-288
(compact mode): read the name RVA into `i` (advancing `psymbols_array`),
reset `pub_name[0]`, on a nonzero RVA map it (returning `ERR_BAD_FORMAT` when
unmapped) and read up to 77 name bytes with a NUL at `gcount()`; read the
ordinal (advancing `ordinals_array`); take `strlen(pub_name)` and on an empty
name fall back to `cprintf(pub_name, "ord.%", ordinal + ordinal_base)`; then
write `implib <filename>, ` and the name with a `'\n'` stored at
`pub_name[pub_name_len++]`.  The `if (i)` block's early return is flattened
into a leading error test. -/
def symStep (f filename : List Nat) (secs : List RVA2FO) (ob : Nat) (st : PeSym) :
    Except (Nat × List Nat) PeSym :=
  let s1 := seekBegS st.strm st.psym
  let r1 := readS f s1 4
  let psym2 := u32add st.psym 4
  let iv2 := u32mix st.iv r1.bytes
  let pub1 := Function.update st.pub 0 0
  if iv2 ≠ 0 ∧ do_RVA_2_FileOffset secs iv2 = 0 then .error (ERR_BAD_FORMAT, st.out)
  else
    let ps : (Int → Nat) × CStream :=
      if iv2 ≠ 0 then
        let s2 := seekBegS r1.strm (do_RVA_2_FileOffset secs iv2)
        let r2 := readS f s2 77
        (Function.update (writeBytesI pub1 r2.bytes) (r2.g : Int) 0, r2.strm)
      else (pub1, r1.strm)
    let s4 := seekBegS ps.2 st.oarr
    let r3 := readS f s4 2
    let oarr2 := u32add st.oarr 2
    let ordv2 := u16mix st.ordv r3.bytes
    let pl := cstrlen ps.1
    let pr : (Int → Nat) × Nat :=
      if pl = 0 then
        let r := cprintf ps.1 ordMask ((ordv2 + ob : Nat) : Int)
        (r.1, r.2.toNat)
      else (ps.1, pl)
    let current_mod := MOD_NO
    let out2 := st.out ++ implibBytes ++ filename
      ++ (if current_mod ≠ MOD_NO then stdcallBytes else commaBytes)
    let pub4 := Function.update pr.1 (pr.2 : Int) 10
    let out3 := out2 ++ (List.range (pr.2 + 1)).map (fun (j : Nat) => pub4 (j : Int))
    .ok ⟨r3.strm, psym2, oarr2, pub4, iv2, ordv2, out3⟩

/-- The name-pointer loop of dll2def.cpp (`while (num_sections--)`),
counted. -/
def symLoop (f filename : List Nat) (secs : List RVA2FO) (ob : Nat) :
    Nat → PeSym → Nat × List Nat
  | 0, st => (ERR_OK, st.out)
  | k + 1, st =>
      match symStep f filename secs ob st with
      | .error e => e
      | .ok st2 => symLoop f filename secs ob k st2

/-- Embedding of dll2def.cpp's `parse_pe` (lines 101-289), compact mode:
returns the error code and the bytes written to the output stream.  `canOpen`
models `hFile.open` success; `buf0`, `pub0`, `i0`, `ord0` are the
indeterminate initial values of the locals `buf`, `pub_name`, `i`,
`ordinal`. -/
def parse_pe (canOpen : Bool) (f filename : List Nat) (buf0 : Nat → Nat)
    (pub0 : Int → Nat) (i0 ord0 : Nat) : Nat × List Nat :=
  if canOpen = false then (ERR_FILE_NOT_FOUND, []) else
  match PeParse.prelude f buf0 with
  | .error e => e
  | .ok p => symLoop f filename p.secs p.ordinal_base p.cnt
      ⟨p.strm, p.psymbols, p.ordinals, pub0, i0, ord0, p.out⟩

end Dll2def

namespace Dumpsyms

/-- One iteration of the name-pointer loop of part_004 lines 215-277 (compact
mode).  Identical to dll2def's loop except for the empty-name fallback: the
name is produced with `ss << "ord." << (ordinal + ordinal_base)` and copied
with `strcpy` (which also stores a NUL terminator), and `pub_name_len` is the
stringstream length. -/
def symStep (f filename : List Nat) (secs : List RVA2FO) (ob : Nat) (st : PeSym) :
    Except (Nat × List Nat) PeSym :=
  let s1 := seekBegS st.strm st.psym
  let r1 := readS f s1 4
  let psym2 := u32add st.psym 4
  let iv2 := u32mix st.iv r1.bytes
  let pub1 := Function.update st.pub 0 0
  if iv2 ≠ 0 ∧ do_RVA_2_FileOffset secs iv2 = 0 then .error (ERR_BAD_FORMAT, st.out)
  else
    let ps : (Int → Nat) × CStream :=
      if iv2 ≠ 0 then
        let s2 := seekBegS r1.strm (do_RVA_2_FileOffset secs iv2)
        let r2 := readS f s2 77
        (Function.update (writeBytesI pub1 r2.bytes) (r2.g : Int) 0, r2.strm)
      else (pub1, r1.strm)
    let s4 := seekBegS ps.2 st.oarr
    let r3 := readS f s4 2
    let oarr2 := u32add st.oarr 2
    let ordv2 := u16mix st.ordv r3.bytes
    let pl := cstrlen ps.1
    let pr : (Int → Nat) × Nat :=
      if pl = 0 then
        let ds := ordBytes ++ decRepr (ordv2 + ob)
        (writeBytesI ps.1 (ds ++ [0]), ds.length)
      else (ps.1, pl)
    let current_mod := MOD_NO
    let out2 := st.out ++ implibBytes ++ filename
      ++ (if current_mod ≠ MOD_NO then stdcallBytes else commaBytes)
    let pub4 := Function.update pr.1 (pr.2 : Int) 10
    let out3 := out2 ++ (List.range (pr.2 + 1)).map (fun (j : Nat) => pub4 (j : Int))
    .ok ⟨r3.strm, psym2, oarr2, pub4, iv2, ordv2, out3⟩

/-- The name-pointer loop of part_004 (`while (num_sections--)`), counted. -/
def symLoop (f filename : List Nat) (secs : List RVA2FO) (ob : Nat) :
    Nat → PeSym → Nat × List Nat
  | 0, st => (ERR_OK, st.out)
  | k + 1, st =>
      match symStep f filename secs ob st with
      | .error e => e
      | .ok st2 => symLoop f filename secs ob k st2

/-- Embedding of part_004's `parse_pe` (lines 94-278), compact mode.  `stem`
is the precomputed `dll_path.stem()` string (used only in the non-compact
comment lines, hence unused here). -/
def parse_pe (canOpen : Bool) (f filename stem : List Nat) (buf0 : Nat → Nat)
    (pub0 : Int → Nat) (i0 ord0 : Nat) : Nat × List Nat :=
  let dll_name := stem
  if canOpen = false then (ERR_FILE_NOT_FOUND, []) else
  match PeParse.prelude f buf0 with
  | .error e => e
  | .ok p => symLoop f filename p.secs p.ordinal_base p.cnt
      ⟨p.strm, p.psymbols, p.ordinals, pub0, i0, ord0, p.out⟩

end Dumpsyms

lemma u16m_lt (m : Nat → Nat) (off : Nat) : u16m m off < 65536 := by
  unfold u16m
  have h1 := Nat.mod_lt (m off) (show 0 < 256 by norm_num)
  have h2 := Nat.mod_lt (m (off + 1)) (show 0 < 256 by norm_num)
  omega

lemma u16mix_lt (old : Nat) (b : List Nat) : u16mix old b < 65536 := by
  unfold u16mix
  have h1 := Nat.mod_lt (b.getD 0 0) (show 0 < 256 by norm_num)
  have h2 := Nat.mod_lt (b.getD 1 0) (show 0 < 256 by norm_num)
  have h3 := Nat.mod_lt old (show 0 < 256 by norm_num)
  have h4 := Nat.mod_lt (old / 256) (show 0 < 256 by norm_num)
  split_ifs <;> omega

/-- The bound the prelude guarantees for `ordinal_base` (a uint16 read). -/
def preludeObBound : Except (Nat × List Nat) PePre → Prop
  | .error _ => True
  | .ok p => p.ordinal_base < 65536

lemma prelude2_ob (f : List Nat) (edVA edVS : Nat) (out1 : List Nat)
    (sbs : CStream × (Nat → Nat) × List RVA2FO) :
    preludeObBound (PeParse.prelude2 f edVA edVS out1 sbs) := by
  unfold PeParse.prelude2
  lift_lets
  extract_lets
  repeat' split
  all_goals first
    | exact True.intro
    | exact u16m_lt _ _

lemma prelude_ob (f : List Nat) (buf0 : Nat → Nat) :
    preludeObBound (PeParse.prelude f buf0) := by
  unfold PeParse.prelude
  lift_lets
  extract_lets
  repeat' split
  all_goals first
    | exact True.intro
    | exact prelude2_ob _ _ _ _ _

lemma prelude_ob_lt (f : List Nat) (buf0 : Nat → Nat) (p : PePre)
    (h : PeParse.prelude f buf0 = .ok p) : p.ordinal_base < 65536 := by
  have hb := prelude_ob f buf0
  rw [h] at hb
  exact hb

lemma decRepr_lt_256 (m : Nat) : ∀ b ∈ decRepr m, b < 256 := by
  induction m using Nat.strong_induction_on with
  | _ m ih =>
    intro b hb
    rw [decRepr] at hb
    by_cases h : m < 10
    · rw [dif_pos h] at hb
      simp at hb
      omega
    · rw [dif_neg h] at hb
      rcases List.mem_append.mp hb with h1 | h1
      · exact ih (m / 10) (Nat.div_lt_self (by omega) (by omega)) b h1
      · simp at h1
        have h2 := Nat.mod_lt m (show 0 < 10 by norm_num)
        omega

lemma ordMask_decomp : ordMask = ordBytes ++ 37 :: [] := rfl

lemma cprintf_ordMask (pub : Int → Nat) (m : Nat) (hm : m ≤ 999999) :
    cprintf pub ordMask (m : Int)
      = (overwriteAt pub 0 (ordBytes ++ decRepr m), (4 : Int) + (decRepr m).length) := by
  rw [ordMask_decomp, cprintf_single_percent ordBytes [] (m : Int) pub (by decide) (by decide)]
  obtain ⟨hpad, hlen⟩ := cprintfLen_decRepr m hm
  rw [hpad, List.append_nil, Prod.mk.injEq]
  refine ⟨rfl, ?_⟩
  rw [hlen]
  simp [ordBytes]

lemma fallback_len_eq (pub : Int → Nat) (m : Nat) (hm : m ≤ 999999) :
    (cprintf pub ordMask (m : Int)).2.toNat = (ordBytes ++ decRepr m).length := by
  rw [cprintf_ordMask pub m hm]
  simp [ordBytes]
  omega

lemma mem_ordBytes_decRepr_lt (m : Nat) : ∀ b ∈ ordBytes ++ decRepr m, b < 256 := by
  intro b hb
  rcases List.mem_append.mp hb with h | h
  · revert h
    unfold ordBytes
    intro h
    simp at h
    rcases h with h | h | h | h <;> omega
  · exact decRepr_lt_256 m b h

lemma fallback_buf_eq (pub : Int → Nat) (m : Nat) (hm : m ≤ 999999) :
    Function.update (cprintf pub ordMask (m : Int)).1
        (((ordBytes ++ decRepr m).length : Nat) : Int) 10
      = Function.update (writeBytesI pub ((ordBytes ++ decRepr m) ++ [0]))
        (((ordBytes ++ decRepr m).length : Nat) : Int) 10 := by
  rw [cprintf_ordMask pub m hm]
  have hL : ((((ordBytes ++ decRepr m) ++ [0]).length : Nat) : Int)
      = (((ordBytes ++ decRepr m).length : Nat) : Int) + 1 := by
    simp
    ring
  funext j
  by_cases hj : j = (((ordBytes ++ decRepr m).length : Nat) : Int)
  · rw [hj, Function.update_same, Function.update_same]
  · rw [Function.update_noteq hj, Function.update_noteq hj]
    simp only [overwriteAt, writeBytesI]
    by_cases h1 : (0 : Int) ≤ j ∧ j < (((ordBytes ++ decRepr m).length : Nat) : Int)
    · rw [if_pos (by constructor <;> omega), if_pos (by constructor <;> omega)]
      have hlt : j.toNat < (ordBytes ++ decRepr m).length := by omega
      rw [show j - 0 = j from by ring, List.getD_append _ _ _ _ hlt]
      have hmem : (ordBytes ++ decRepr m).getD j.toNat 0 < 256 := by
        rw [List.getD_eq_getElem _ _ hlt]
        exact mem_ordBytes_decRepr_lt m _ (List.getElem_mem hlt)
      omega
    · rw [if_neg (by intro hc; exact h1 (by constructor <;> omega)),
        if_neg (by intro hc; exact h1 (by constructor <;> omega))]

lemma symStep_eq (f filename : List Nat) (secs : List RVA2FO) (ob : Nat) (hob : ob < 65536)
    (st : PeSym) :
    Dll2def.symStep f filename secs ob st = Dumpsyms.symStep f filename secs ob st := by
  unfold Dll2def.symStep Dumpsyms.symStep
  simp only []
  split
  · rfl
  · set ps : (Int → Nat) × CStream :=
      (if u32mix st.iv (readS f (seekBegS st.strm st.psym) 4).bytes ≠ 0 then
        (Function.update
          (writeBytesI (Function.update st.pub 0 0)
            (readS f (seekBegS (readS f (seekBegS st.strm st.psym) 4).strm
              (do_RVA_2_FileOffset secs
                (u32mix st.iv (readS f (seekBegS st.strm st.psym) 4).bytes))) 77).bytes)
          ((readS f (seekBegS (readS f (seekBegS st.strm st.psym) 4).strm
              (do_RVA_2_FileOffset secs
                (u32mix st.iv (readS f (seekBegS st.strm st.psym) 4).bytes))) 77).g : Int) 0,
         (readS f (seekBegS (readS f (seekBegS st.strm st.psym) 4).strm
            (do_RVA_2_FileOffset secs
              (u32mix st.iv (readS f (seekBegS st.strm st.psym) 4).bytes))) 77).strm)
      else (Function.update st.pub 0 0, (readS f (seekBegS st.strm st.psym) 4).strm))
      with hps
    by_cases hpl : cstrlen ps.1 = 0
    · rw [if_pos hpl, if_pos hpl]
      have hm : u16mix st.ordv (readS f (seekBegS ps.2 st.oarr) 2).bytes + ob ≤ 999999 := by
        have h1 := u16mix_lt st.ordv (readS f (seekBegS ps.2 st.oarr) 2).bytes
        omega
      have hlen := fallback_len_eq ps.1
        (u16mix st.ordv (readS f (seekBegS ps.2 st.oarr) 2).bytes + ob) hm
      have hbuf := fallback_buf_eq ps.1
        (u16mix st.ordv (readS f (seekBegS ps.2 st.oarr) 2).bytes + ob) hm
      rw [hlen, hbuf]
    · rw [if_neg hpl, if_neg hpl]

lemma symLoop_eq (f filename : List Nat) (secs : List RVA2FO) (ob : Nat) (hob : ob < 65536) :
    ∀ (k : Nat) (st : PeSym),
    Dll2def.symLoop f filename secs ob k st = Dumpsyms.symLoop f filename secs ob k st := by
  intro k
  induction k with
  | zero => intro st; rfl
  | succ k ih =>
    intro st
    rw [Dll2def.symLoop, Dumpsyms.symLoop, symStep_eq f filename secs ob hob st]
    cases Dumpsyms.symStep f filename secs ob st with
    | error e => rfl
    | ok st2 => exact ih st2

/-- Claim C3: processed with the `/COMPACT` switch, dll2def's `parse_pe` and
dumpsyms' `parse_pe` return the same error code and write the same output on
every file: the same include header line and the same `implib` directive
lines, including the `ord.<n>` fallback text for unnamed exports (dll2def
renders it with `cprintf`, dumpsyms with a stringstream; both agree for every
reachable value `ordinal + ordinal_base ≤ 131070`). -/
theorem claim_C3 : ∀ (canOpen : Bool) (f filename stem : List Nat) (buf0 : Nat → Nat)
    (pub0 : Int → Nat) (i0 ord0 : Nat),
    Dll2def.parse_pe canOpen f filename buf0 pub0 i0 ord0
      = Dumpsyms.parse_pe canOpen f filename stem buf0 pub0 i0 ord0 := by
  intro canOpen f filename stem buf0 pub0 i0 ord0
  unfold Dll2def.parse_pe Dumpsyms.parse_pe
  cases canOpen with
  | false => rfl
  | true =>
    simp only [Bool.true_eq_false, if_false]
    cases hp : PeParse.prelude f buf0 with
    | error e => rfl
    | ok p =>
      have hob := prelude_ob_lt f buf0 p hp
      exact symLoop_eq f filename p.secs p.ordinal_base hob p.cnt _

end ImplibGen
